/-
Verification of the crane editor core (src/usr/bin/crane.py).

The editing core is shallowly embedded: Python strings become `List Char`,
the `Editor` object becomes the record `EditorState`, and each method
becomes a Lean function with the same name.  External effects (shell,
audio, image preview) are recorded in an effect log, the file system is an
association list, and `os.getcwd`/`os.chdir` act on a `cwd` field.
-/
import Mathlib

namespace Crane

/-- A text line: a Python `str` as a sequence of Unicode scalar values. -/
abbrev Line := List Char

/-- The document: `self.lines`, a list of lines. -/
abbrev Doc := List Line

/-- Python whitespace for `str.strip()` / `str.split()`:
space, tab, newline, carriage return, vertical tab, form feed. -/
def pyIsSpace (c : Char) : Bool :=
  c = ' ' ∨ c = '\t' ∨ c = '\n' ∨ c = '\r' ∨ c = '\x0b' ∨ c = '\x0c'

/-- Python `str.strip()`: drop whitespace from both ends. -/
def pyStrip (l : List Char) : List Char :=
  ((l.dropWhile pyIsSpace).reverse.dropWhile pyIsSpace).reverse

/-- Worker for `pySplit`; `acc` holds the current word reversed. -/
def pySplitAux : List Char → List Char → List (List Char)
  | [], acc => if acc = [] then [] else [acc.reverse]
  | c :: t, acc =>
    if pyIsSpace c then
      if acc = [] then pySplitAux t [] else acc.reverse :: pySplitAux t []
    else pySplitAux t (c :: acc)

/-- Python `str.split()` with no argument: split on runs of whitespace,
discarding empty pieces. -/
def pySplit (l : List Char) : List (List Char) :=
  pySplitAux l []

/-- Python `str.split(sep, 1)` restricted to what the code needs:
`none` when the separator does not occur (where Python would return a
one-element list, making `old, new = ...` raise), otherwise the pieces
before and after the first occurrence. -/
def pySplitOnce (sep : Char) : List Char → Option (List Char × List Char)
  | [] => none
  | c :: t =>
    if c = sep then some ([], t)
    else (pySplitOnce sep t).map (fun p => (c :: p.1, p.2))

/-- Worker for `strFind`: first index `≥ i` where `term` occurs. -/
def strFindAux (term : List Char) : List Char → Nat → Option Nat
  | [], i => if term.isPrefixOf ([] : List Char) then some i else none
  | c :: t, i => if term.isPrefixOf (c :: t) then some i else strFindAux term t (i + 1)

/-- Python `str.find(term)`: index of the first occurrence of `term`,
`none` standing for Python's `-1`. -/
def strFind (l term : List Char) : Option Nat :=
  strFindAux term l 0

/-- Worker for `pyReplace` when `old` is non-empty: replace each
non-overlapping occurrence of `old`, scanning left to right.  `fuel`
bounds the number of steps; every step consumes at least one input
character (`old` is non-empty), so `fuel = s.length` never runs out. -/
def pyReplaceAux (old new : List Char) : Nat → List Char → List Char
  | _, [] => []
  | 0, s => s
  | fuel + 1, c :: t =>
    if old.isPrefixOf (c :: t) then
      new ++ pyReplaceAux old new fuel (t.drop (old.length - 1))
    else
      c :: pyReplaceAux old new fuel t

/-- Python `str.replace(old, new)`: all non-overlapping occurrences,
left to right; with `old = ""`, `new` is inserted before every character
and at the end (`"ab".replace("", "-") = "-a-b-"`). -/
def pyReplace (s old new : List Char) : List Char :=
  if old.length = 0 then
    new ++ s.foldr (fun c acc => c :: (new ++ acc)) []
  else
    pyReplaceAux old new s.length s

/-- Characters at which Python `str.splitlines()` breaks. -/
def pyIsLineBreak (c : Char) : Bool :=
  c = '\n' ∨ c = '\r' ∨ c = '\x0b' ∨ c = '\x0c' ∨
  c = Char.ofNat 28 ∨ c = Char.ofNat 29 ∨ c = Char.ofNat 30 ∨
  c = Char.ofNat 133 ∨ c = Char.ofNat 8232 ∨ c = Char.ofNat 8233

/-- Split at every line-break character, keeping every piece (one more
piece than breaks).  Models `splitlines` up to `\r\n` pairing, which can
never occur in text this program writes (it joins with a lone `\n`). -/
def splitSep : List Char → List (List Char)
  | [] => [[]]
  | c :: t =>
    if pyIsLineBreak c then [] :: splitSep t
    else
      match splitSep t with
      | [] => [[c]]
      | h :: r => (c :: h) :: r

/-- Python `str.splitlines()`: like `splitSep` but a final empty piece is
dropped (`"".splitlines() = []`, `"a\n".splitlines() = ["a"]`). -/
def pySplitlines (t : List Char) : List (List Char) :=
  let p := splitSep t
  if p.getLastD [] = [] then p.dropLast else p

/-- Python `'\n'.join(lines)`. -/
def joinNl : Doc → Line
  | [] => []
  | [l] => l
  | l :: l2 :: ls => l ++ '\n' :: joinNl (l2 :: ls)

/-- Python `' '.join(words)` (used by the `:!` shell branch). -/
def joinSpace : List (List Char) → List Char
  | [] => []
  | [w] => w
  | w :: w2 :: ws => w ++ ' ' :: joinSpace (w2 :: ws)

/-- The editor mode strings: NORMAL, INSERT, VISUAL, CMD. -/
inductive Mode where
  | NORMAL
  | INSERT
  | VISUAL
  | CMD
deriving DecidableEq, Repr

/-- A key as delivered by `stdscr.get_wch()`: either a one-character
string or an integer keycode (e.g. `curses.KEY_BACKSPACE = 263`). -/
inductive Key where
  | char (c : Char)
  | code (n : Nat)
deriving DecidableEq, Repr

/-- `curses.KEY_BACKSPACE`. -/
def KEY_BACKSPACE : Nat := 263

/-- External side effects the editor can fire (shell command, audio
playback, image preview); recorded rather than executed. -/
inductive Effect where
  | shell (cmd : List Char)
  | audio (path : List Char)
  | image (path : List Char)
deriving DecidableEq, Repr

/-- The file system, as an association list from path to file content;
the most recent write for a path shadows older entries. -/
abbrev FS := List (List Char × List Char)

/-- Read a file: the most recent content written at `p`, if any. -/
def fsRead (fs : FS) (p : List Char) : Option (List Char) :=
  (fs.find? (fun e => e.1 = p)).map (fun e => e.2)

/-- Write a file: prepend, shadowing any older entry. -/
def fsWrite (fs : FS) (p v : List Char) : FS :=
  (p, v) :: fs

/-- The `Editor` object's state.  Fields mirror the Python attributes;
`fs`, `cwd`, `effects` and `exited` model the process environment
(`open`, `os.getcwd`/`os.chdir`, fired effects, `sys.exit`). -/
structure EditorState where
  fname : Option (List Char)
  lines : Doc
  mode : Mode
  cursor_y : Nat
  cursor_x : Nat
  vis_start : Option (Nat × Nat)
  cmd_buffer : List Char
  search_term : List Char
  syntax_enabled : Bool
  show_line_numbers : Bool
  undo_stack : List Doc
  redo_stack : List Doc
  status_msg : String
  fs : FS
  cwd : List Char
  effects : List Effect
  exited : Bool
deriving DecidableEq, Repr

/-- `Editor.load_file`: read `self.fname` (missing file or no filename
yields a single empty line; an empty read is replaced by one empty
line). -/
def load_file (s : EditorState) : EditorState :=
  match s.fname with
  | some f =>
    match fsRead s.fs f with
    | some content =>
      let ls := pySplitlines content
      { s with lines := if ls = [] then [[]] else ls }
    | none => { s with lines := [[]] }
  | none => { s with lines := [[]] }

/-- `Editor.save_file`: write `'\n'.join(self.lines)` to the argument
path or `self.fname`; no path at all reports a status message. -/
def save_file (s : EditorState) (fnameArg : Option (List Char)) : EditorState :=
  let fname := match fnameArg with
    | some f => some f
    | none => s.fname
  match fname with
  | some f =>
    { s with
      fs := fsWrite s.fs f (joinNl s.lines),
      status_msg := "Saved to " ++ String.mk f,
      fname := some f }
  | none => { s with status_msg := "No filename specified" }

/-- The stack discipline of `Editor.push_undo`: push a snapshot (list
head is the newest entry), and when the stack then holds more than 100
entries drop the oldest (`pop(0)`, the list's last element). -/
def pushStack (l : Doc) (u : List Doc) : List Doc :=
  let u' := l :: u
  if 100 < u'.length then u'.dropLast else u'

/-- `Editor.push_undo`: snapshot the current lines onto the undo stack,
evicting the oldest entry beyond 100.  (It does not touch the redo
stack.) -/
def push_undo (s : EditorState) : EditorState :=
  { s with undo_stack := pushStack s.lines s.undo_stack }

/-- `Editor.undo`: with a non-empty undo stack, push the current lines
onto redo, pop undo into lines, and clamp the cursor. -/
def undo (s : EditorState) : EditorState :=
  match s.undo_stack with
  | [] => s
  | top :: rest =>
    let cy := min s.cursor_y (top.length - 1)
    { s with
      redo_stack := s.lines :: s.redo_stack,
      lines := top,
      undo_stack := rest,
      cursor_y := cy,
      cursor_x := min s.cursor_x (top.getD cy []).length,
      status_msg := "Undo" }

/-- `Editor.redo`: mirror of `undo`; note the push onto the undo stack
is a plain `append` with no eviction. -/
def redo (s : EditorState) : EditorState :=
  match s.redo_stack with
  | [] => s
  | top :: rest =>
    let cy := min s.cursor_y (top.length - 1)
    { s with
      undo_stack := s.lines :: s.undo_stack,
      lines := top,
      redo_stack := rest,
      cursor_y := cy,
      cursor_x := min s.cursor_x (top.getD cy []).length,
      status_msg := "Redo" }

/-- `Editor.find_term`: scan lines from row 0; at the first line
containing `term` set the cursor to the match and return `True`,
otherwise report not-found and return `False`.  The scan is the helper
`findLoop`. -/
def findLoop (term : List Char) : Doc → Nat → Option (Nat × Nat)
  | [], _ => none
  | l :: rest, i =>
    match strFind l term with
    | some idx => some (i, idx)
    | none => findLoop term rest (i + 1)

/-- `Editor.find_term` proper: returns the Python `True`/`False` paired
with the updated state. -/
def find_term (s : EditorState) (term : List Char) : Bool × EditorState :=
  match findLoop term s.lines 0 with
  | some (i, idx) =>
    (true,
     { s with
       cursor_y := i,
       cursor_x := idx,
       status_msg := "Found '" ++ String.mk term ++ "' at Ln " ++ toString (i + 1) })
  | none =>
    (false, { s with status_msg := "'" ++ String.mk term ++ "' not found" })

/-- `path.endswith(('.wav', '.mp3'))`. -/
def hasAudioSuffix (p : List Char) : Bool :=
  (".wav".toList).isSuffixOf p ∨ (".mp3".toList).isSuffixOf p

/-- `path.lower().endswith(('.png', '.jpg', '.jpeg', '.bmp'))`. -/
def hasImageSuffix (p : List Char) : Bool :=
  let q := p.map Char.toLower
  (".png".toList).isSuffixOf q ∨ (".jpg".toList).isSuffixOf q ∨
  (".jpeg".toList).isSuffixOf q ∨ (".bmp".toList).isSuffixOf q

/-- The `:help` status text. -/
def helpText : String :=
  "Commands: :w :q :wq :q! :e <file> :saveas <file> :r <file> :set syntax|number :!<cmd> :open <file> :pwd :cd <dir> :replace <old>/<new> :undo :redo"

/-- The `elif` chain of `Editor.command_dispatch` after the command line
has been split into a verb `c` and arguments `rest`. -/
def command_dispatch_core (s : EditorState) (c : List Char)
    (rest : List (List Char)) : EditorState :=
  if c = "w".toList then
    save_file s none
  else if c = "q".toList then
    { s with exited := true }
  else if c = "q!".toList then
    { s with exited := true }
  else if c = "wq".toList then
    { save_file s none with exited := true }
  else if c = "e".toList then
    match rest with
    | [] => s
    | f :: _ =>
      let s1 := load_file { s with fname := some f }
      { s1 with cursor_x := 0, cursor_y := 0 }
  else if c = "saveas".toList then
    match rest with
    | [] => s
    | f :: _ => { save_file s (some f) with fname := some f }
  else if c = "r".toList then
    match rest with
    | [] => s
    | f :: _ =>
      match fsRead s.fs f with
      | some content =>
        { s with
          lines := s.lines ++ pySplitlines content,
          status_msg := "Appended " ++ String.mk f }
      | none => { s with status_msg := "Error reading " ++ String.mk f }
  else if c = "set".toList then
    match rest with
    | [] => s
    | o :: _ =>
      if o = "syntax".toList then
        let e := !s.syntax_enabled
        { s with
          syntax_enabled := e,
          status_msg := if e then "Syntax on" else "Syntax off" }
      else if o = "number".toList then
        let e := !s.show_line_numbers
        { s with
          show_line_numbers := e,
          status_msg := if e then "Line numbers on" else "Line numbers off" }
      else s
  else if c = "!".toList then
    { s with effects := s.effects ++ [Effect.shell (joinSpace rest)] }
  else if c = "open".toList then
    match rest with
    | [] => s
    | p :: _ =>
      if hasAudioSuffix p then
        { s with effects := s.effects ++ [Effect.audio p] }
      else if hasImageSuffix p then
        { s with effects := s.effects ++ [Effect.image p] }
      else s
  else if c = "pwd".toList then
    { s with status_msg := String.mk s.cwd }
  else if c = "cd".toList then
    match rest with
    | [] => s
    | d :: _ => { s with cwd := d, status_msg := "Changed dir to " ++ String.mk d }
  else if c = "help".toList then
    { s with status_msg := helpText }
  else if c = "replace".toList then
    match rest with
    | [] => s
    | a :: _ =>
      match pySplitOnce '/' a with
      | none => { s with status_msg := "Usage: :replace old/new" }
      | some (old, new) =>
        let s1 := push_undo s
        { s1 with
          lines := s1.lines.map (fun ln => pyReplace ln old new),
          status_msg :=
            "Replaced '" ++ String.mk old ++ "' with '" ++ String.mk new ++ "'" }
  else if c = "undo".toList then
    undo s
  else if c = "redo".toList then
    redo s
  else if c = "new".toList then
    let s1 := push_undo s
    { s1 with
      lines := [[]],
      cursor_x := 0,
      cursor_y := 0,
      fname := none,
      status_msg := "New buffer" }
  else
    { s with status_msg := "Unknown command: " ++ String.mk c }

/-- `Editor.command_dispatch`: strip and whitespace-split the command
line; an empty split returns with no change, otherwise dispatch on the
verb and arguments. -/
def command_dispatch (s : EditorState) (cmd : List Char) : EditorState :=
  match pySplit (pyStrip cmd) with
  | [] => s
  | c :: rest => command_dispatch_core s c rest

/-- `Editor.process_insert`: Esc leaves INSERT mode; Enter splits the
line; Backspace (`curses.KEY_BACKSPACE` or the `'\x7f'` string) deletes
before the cursor or joins with the previous line; any other string is
inserted at the cursor.  Each mutating branch calls `push_undo` first. -/
def process_insert (s : EditorState) (key : Key) : EditorState :=
  if key = Key.char '\x1b' then
    { s with mode := Mode.NORMAL }
  else if key = Key.char '\n' then
    let s1 := push_undo s
    let line := s.lines.getD s.cursor_y []
    { s1 with
      lines :=
        (s1.lines.set s.cursor_y (line.take s.cursor_x)).insertIdx
          (s.cursor_y + 1) (line.drop s.cursor_x),
      cursor_y := s.cursor_y + 1,
      cursor_x := 0 }
  else if key = Key.code KEY_BACKSPACE ∨ key = Key.char '\x7f' then
    if 0 < s.cursor_x then
      let s1 := push_undo s
      let line := s.lines.getD s.cursor_y []
      { s1 with
        lines :=
          s1.lines.set s.cursor_y
            (line.take (s.cursor_x - 1) ++ line.drop s.cursor_x),
        cursor_x := s.cursor_x - 1 }
    else if 0 < s.cursor_y then
      let s1 := push_undo s
      let prev := s.lines.getD (s.cursor_y - 1) []
      let cur := s.lines.getD s.cursor_y []
      { s1 with
        lines := (s1.lines.set (s.cursor_y - 1) (prev ++ cur)).eraseIdx s.cursor_y,
        cursor_y := s.cursor_y - 1,
        cursor_x := prev.length }
    else s
  else
    match key with
    | Key.char c =>
      let s1 := push_undo s
      let line := s.lines.getD s.cursor_y []
      { s1 with
        lines :=
          s1.lines.set s.cursor_y
            (line.take s.cursor_x ++ c :: line.drop s.cursor_x),
        cursor_x := s.cursor_x + 1 }
    | Key.code _ => s

/-- The word scan of the NORMAL-mode `p` key: walk the
whitespace-split words keeping a running start offset `cum`; at the
word under the cursor fire at most one preview effect and stop. -/
def wordScan (cx : Nat) : List (List Char) → Nat → List Effect
  | [], _ => []
  | w :: ws, cum =>
    if cum ≤ cx ∧ cx < cum + w.length then
      if hasAudioSuffix w then [Effect.audio w]
      else if hasImageSuffix w then [Effect.image w]
      else []
    else wordScan cx ws (cum + w.length + 1)

/-- `Editor.process_normal`: mode entries, undo/redo, the `hjkl`
motions (with vertical clamping), the `p` media preview, and Esc. -/
def process_normal (s : EditorState) (key : Key) : EditorState :=
  if key = Key.char 'i' then
    { s with mode := Mode.INSERT }
  else if key = Key.char 'v' then
    { s with mode := Mode.VISUAL, vis_start := some (s.cursor_y, s.cursor_x) }
  else if key = Key.char ':' then
    { s with mode := Mode.CMD, cmd_buffer := [] }
  else if key = Key.char '/' then
    { s with mode := Mode.CMD, cmd_buffer := ['/'] }
  else if key = Key.char 'u' then
    undo s
  else if key = Key.char 'r' then
    redo s
  else if key = Key.char 'h' then
    if 0 < s.cursor_x then { s with cursor_x := s.cursor_x - 1 } else s
  else if key = Key.char 'l' then
    if s.cursor_x < (s.lines.getD s.cursor_y []).length then
      { s with cursor_x := s.cursor_x + 1 }
    else s
  else if key = Key.char 'j' then
    if s.cursor_y < s.lines.length - 1 then
      { s with
        cursor_y := s.cursor_y + 1,
        cursor_x := min s.cursor_x (s.lines.getD (s.cursor_y + 1) []).length }
    else s
  else if key = Key.char 'k' then
    if 0 < s.cursor_y then
      { s with
        cursor_y := s.cursor_y - 1,
        cursor_x := min s.cursor_x (s.lines.getD (s.cursor_y - 1) []).length }
    else s
  else if key = Key.char 'p' then
    { s with
      effects :=
        s.effects ++ wordScan s.cursor_x (pySplit (s.lines.getD s.cursor_y [])) 0 }
  else if key = Key.char '\x1b' then
    { s with mode := Mode.NORMAL, vis_start := none }
  else s

/-- `Editor.process_cmd`: Enter dispatches the buffer (a leading `/`
means search), Esc discards it; otherwise any string key is appended to
the buffer, and only then is the Backspace keycode checked (so the
`'\x7f'` test there is dead: a `'\x7f'` string is caught by the append
branch first). -/
def process_cmd (s : EditorState) (key : Key) : EditorState :=
  if key = Key.char '\n' then
    let cmd := pyStrip s.cmd_buffer
    let s1 :=
      if cmd.take 1 = ['/'] then (find_term s (cmd.drop 1)).2
      else command_dispatch s cmd
    { s1 with cmd_buffer := [], mode := Mode.NORMAL }
  else if key = Key.char '\x1b' then
    { s with cmd_buffer := [], mode := Mode.NORMAL }
  else
    match key with
    | Key.char c => { s with cmd_buffer := s.cmd_buffer ++ [c] }
    | Key.code n =>
      if n = KEY_BACKSPACE then { s with cmd_buffer := s.cmd_buffer.dropLast }
      else s

/-- The freshly constructed editor with no filename: `Editor.__init__`
followed by the `load_file` it performs. -/
def initState : EditorState :=
  { fname := none
    lines := [[]]
    mode := Mode.NORMAL
    cursor_y := 0
    cursor_x := 0
    vis_start := none
    cmd_buffer := []
    search_term := []
    syntax_enabled := true
    show_line_numbers := true
    undo_stack := []
    redo_stack := []
    status_msg := ""
    fs := []
    cwd := []
    effects := []
    exited := false }

/-- One mutating edit of a session, as C1's enumeration has it: an
INSERT-mode keystroke, a `:replace` dispatch carrying its
already-split first argument, or a `:new` dispatch. -/
inductive Edit where
  | ikey (k : Key)
  | creplace (a : List Char)
  | cnew
deriving DecidableEq, Repr

/-- Apply one edit through the corresponding handler of the code. -/
def applyEdit (s : EditorState) : Edit → EditorState
  | Edit.ikey k => process_insert s k
  | Edit.creplace a => command_dispatch_core s ("replace".toList) [a]
  | Edit.cnew => command_dispatch_core s ("new".toList) []

/-- Apply a list of edits in order. -/
def applyEdits : List Edit → EditorState → EditorState
  | [], s => s
  | e :: es, s => applyEdits es (applyEdit s e)

/-- Call `undo` n times. -/
def undoN : Nat → EditorState → EditorState
  | 0, s => s
  | n + 1, s => undoN n (undo s)

/-- Call `redo` n times. -/
def redoN : Nat → EditorState → EditorState
  | 0, s => s
  | n + 1, s => redoN n (redo s)

/-- A concrete editor state for the C8 witness: one line "ab" with the
cursor at column 1. -/
def c8wState : EditorState :=
  { initState with lines := [['a', 'b']], cursor_x := 1 }

/-- A concrete edit list for the C3 witness: type 'a' then 'b'. -/
def c3wEdits : List Edit := [Edit.ikey (Key.char 'a'), Edit.ikey (Key.char 'b')]

/-- One insert-then-undo cycle; each round appends one snapshot to the
redo stack (which `push_undo` never clears and `undo` never bounds). -/
def c4cycle (s : EditorState) : EditorState := undo (process_insert s (Key.char 'a'))

/-- A concrete state for C2: one line "hello" with the cursor at the
end-of-line insertion point, column 5. -/
def c2State : EditorState := { initState with lines := ["hello".toList], cursor_x := 5 }

/-- The verbs of the code's dispatch chain, in chain order. -/
def knownVerbs : List (List Char) :=
  ["w".toList, "q".toList, "q!".toList, "wq".toList, "e".toList, "saveas".toList,
   "r".toList, "set".toList, "!".toList, "open".toList, "pwd".toList, "cd".toList,
   "help".toList, "replace".toList, "undo".toList, "redo".toList, "new".toList]

/-- The fixed verb table of spec §4.5 (no `!`, `open`, `pwd`, `cd`). -/
def specVerbs : List (List Char) :=
  ["w".toList, "q".toList, "q!".toList, "wq".toList, "e".toList, "saveas".toList,
   "r".toList, "set".toList, "replace".toList, "undo".toList, "redo".toList,
   "new".toList, "help".toList]

/-- A concrete state for the C5 witness: one line "a". -/
def c5wState : EditorState := { initState with lines := [['a']] }

/-- A concrete state for the C6 counterexample: working directory "/tmp". -/
def c6State : EditorState := { initState with cwd := "/tmp".toList }

/-- A concrete state for the C9 witness: line "a", filename "f". -/
def c9wState : EditorState := { initState with lines := [['a']], fname := some ['f'] }

/-- A concrete state for the C9 counterexample: lines "a" and "" (a
trailing empty line), filename "f". -/
def c9State : EditorState := { initState with lines := [['a'], []], fname := some ['f'] }

/-! ### Helper lemmas -/

lemma process_insert_hist (s : EditorState) (k : Key) :
    ((process_insert s k).lines = s.lines ∧
     (process_insert s k).undo_stack = s.undo_stack ∧
     (process_insert s k).redo_stack = s.redo_stack) ∨
    ((process_insert s k).undo_stack = pushStack s.lines s.undo_stack ∧
     (process_insert s k).redo_stack = s.redo_stack) := by
  rw [process_insert.eq_def]
  split_ifs with h1 h2 h3 h4 h5
  · left; exact ⟨rfl, rfl, rfl⟩
  · right; exact ⟨rfl, rfl⟩
  · right; exact ⟨rfl, rfl⟩
  · right; exact ⟨rfl, rfl⟩
  · left; exact ⟨rfl, rfl, rfl⟩
  · cases k with
    | char c => right; exact ⟨rfl, rfl⟩
    | code n => left; exact ⟨rfl, rfl, rfl⟩

lemma creplace_hist (s : EditorState) (a : List Char) :
    ((command_dispatch_core s ("replace".toList) [a]).lines = s.lines ∧
     (command_dispatch_core s ("replace".toList) [a]).undo_stack = s.undo_stack ∧
     (command_dispatch_core s ("replace".toList) [a]).redo_stack = s.redo_stack) ∨
    ((command_dispatch_core s ("replace".toList) [a]).undo_stack =
       pushStack s.lines s.undo_stack ∧
     (command_dispatch_core s ("replace".toList) [a]).redo_stack = s.redo_stack) := by
  have e1 : command_dispatch_core s ("replace".toList) [a] =
      match pySplitOnce '/' a with
      | none => { s with status_msg := "Usage: :replace old/new" }
      | some (old, new) =>
        { push_undo s with
          lines := s.lines.map (fun ln => pyReplace ln old new),
          status_msg :=
            "Replaced '" ++ String.mk old ++ "' with '" ++ String.mk new ++ "'" } := rfl
  rw [e1]
  cases pySplitOnce '/' a with
  | none => left; exact ⟨rfl, rfl, rfl⟩
  | some p => right; exact ⟨rfl, rfl⟩

lemma cnew_hist (s : EditorState) :
    (command_dispatch_core s ("new".toList) []).undo_stack =
       pushStack s.lines s.undo_stack ∧
    (command_dispatch_core s ("new".toList) []).redo_stack = s.redo_stack :=
  ⟨rfl, rfl⟩

lemma applyEdit_hist (s : EditorState) (e : Edit) :
    ((applyEdit s e).lines = s.lines ∧
     (applyEdit s e).undo_stack = s.undo_stack ∧
     (applyEdit s e).redo_stack = s.redo_stack) ∨
    ((applyEdit s e).undo_stack = pushStack s.lines s.undo_stack ∧
     (applyEdit s e).redo_stack = s.redo_stack) := by
  cases e with
  | ikey k => exact process_insert_hist s k
  | creplace a => exact creplace_hist s a
  | cnew => exact Or.inr (cnew_hist s)

lemma applyEdits_hist (es : List Edit) : ∀ s : EditorState,
    s.undo_stack.length + es.length ≤ 100 →
    (applyEdits es s).redo_stack = s.redo_stack ∧
    (applyEdits es s).undo_stack.length ≤ s.undo_stack.length + es.length ∧
    (applyEdits es s).undo_stack.getLastD (applyEdits es s).lines =
      s.undo_stack.getLastD s.lines := by
  induction es with
  | nil =>
    intro s h
    exact ⟨rfl, Nat.le_add_right _ _, rfl⟩
  | cons e es ih =>
    intro s h
    have hstep : applyEdits (e :: es) s = applyEdits es (applyEdit s e) := rfl
    rw [hstep]
    simp only [List.length_cons] at h
    rcases applyEdit_hist s e with ⟨hl, hu, hr⟩ | ⟨hu, hr⟩
    · obtain ⟨i1, i2, i3⟩ := ih (applyEdit s e) (by rw [hu]; omega)
      rw [hu] at i2
      refine ⟨i1.trans hr, ?_, ?_⟩
      · simp only [List.length_cons]
        omega
      · rw [i3, hu, hl]
    · have hps : pushStack s.lines s.undo_stack = s.lines :: s.undo_stack := by
        rw [pushStack]
        simp only [List.length_cons]
        rw [if_neg (by omega)]
      obtain ⟨i1, i2, i3⟩ := ih (applyEdit s e)
        (by rw [hu, hps]; simp only [List.length_cons]; omega)
      rw [hu, hps] at i2
      simp only [List.length_cons] at i2
      refine ⟨i1.trans hr, ?_, ?_⟩
      · simp only [List.length_cons]
        omega
      · rw [i3, hu, hps, List.getLastD_cons]

lemma undoN_all (u : List Doc) : ∀ s : EditorState, s.undo_stack = u →
    (undoN u.length s).lines = u.getLastD s.lines ∧
    (undoN u.length s).undo_stack = [] ∧
    (undoN u.length s).redo_stack =
      ((s.lines :: u).dropLast).reverse ++ s.redo_stack := by
  induction u with
  | nil =>
    intro s h
    exact ⟨rfl, h, rfl⟩
  | cons a rest ih =>
    intro s h
    have hu : undo s =
        { s with
          redo_stack := s.lines :: s.redo_stack,
          lines := a,
          undo_stack := rest,
          cursor_y := min s.cursor_y (a.length - 1),
          cursor_x := min s.cursor_x (a.getD (min s.cursor_y (a.length - 1)) []).length,
          status_msg := "Undo" } := by
      rw [undo.eq_def, h]
    have hstep : undoN (a :: rest).length s = undoN rest.length (undo s) := rfl
    rw [hstep]
    obtain ⟨i1, i2, i3⟩ := ih (undo s) (by rw [hu])
    refine ⟨?_, i2, ?_⟩
    · rw [i1, hu, List.getLastD_cons]
    · rw [i3, hu]
      show ((a :: rest).dropLast).reverse ++ s.lines :: s.redo_stack = _
      rw [List.dropLast_cons₂, List.reverse_cons, List.append_assoc,
        List.singleton_append]

lemma redoN_lines (v : List Doc) : ∀ (s : EditorState) (r : List Doc),
    s.redo_stack = v ++ r →
    (redoN v.length s).lines = v.getLastD s.lines := by
  induction v with
  | nil =>
    intro s r h
    rfl
  | cons a rest ih =>
    intro s r h
    have hr : redo s =
        { s with
          undo_stack := s.lines :: s.undo_stack,
          lines := a,
          redo_stack := rest ++ r,
          cursor_y := min s.cursor_y (a.length - 1),
          cursor_x := min s.cursor_x (a.getD (min s.cursor_y (a.length - 1)) []).length,
          status_msg := "Redo" } := by
      rw [redo.eq_def, h]
      rfl
    have hstep : redoN (a :: rest).length s = redoN rest.length (redo s) := rfl
    rw [hstep]
    rw [ih (redo s) r (by rw [hr]), hr, List.getLastD_cons]

lemma getD_set_self (l : Doc) (i : Nat) (v : Line) (h : i < l.length) :
    (l.set i v).getD i [] = v := by
  rw [List.getD_eq_getElem?_getD, List.getElem?_set_eq_of_lt _ h]
  rfl

lemma set_getD_self (l : Doc) (i : Nat) (h : i < l.length) :
    l.set i (l.getD i []) = l := by
  rw [List.getD_eq_getElem?_getD, List.getElem?_eq_getElem h]
  show l.set i l[i] = l
  apply List.ext_getElem?
  intro n
  rw [List.getElem?_set]
  split
  · rename_i hin
    subst hin
    simp [List.getElem?_eq_getElem h]
  · rfl

lemma insert_delete_line (L : Line) (c : Char) (cx : Nat) (h : cx ≤ L.length) :
    (L.take cx ++ c :: L.drop cx).take (cx + 1 - 1) ++
      (L.take cx ++ c :: L.drop cx).drop (cx + 1) = L := by
  have hlen : (L.take cx).length = cx := by
    simp [List.length_take, Nat.min_eq_left h]
  have ht := List.take_left (L.take cx) (c :: L.drop cx)
  rw [hlen] at ht
  have h1 := List.drop_left (L.take cx) (c :: L.drop cx)
  rw [hlen] at h1
  have hd : (L.take cx ++ c :: L.drop cx).drop (cx + 1) = L.drop cx := by
    have h2 : (L.take cx ++ c :: L.drop cx).drop (cx + 1) =
        ((L.take cx ++ c :: L.drop cx).drop cx).drop 1 := by
      rw [List.drop_drop]
    rw [h2, h1]
    rfl
  rw [Nat.add_sub_cancel, ht, hd, List.take_append_drop]

/-! ### C8: insert then delete-before is the identity -/

/-- C8: for every in-bounds cursor position (row ≤ number of lines,
column ≤ line length) and every printable key (not Esc, Enter, or the
Backspace string), inserting the character and then deleting before the
resulting position restores the document lines and the cursor. -/
theorem c8_insert_delete_inverse (s : EditorState) (c : Char)
    (hrow : s.cursor_y < s.lines.length)
    (hcol : s.cursor_x ≤ (s.lines.getD s.cursor_y []).length)
    (h1 : c ≠ '\x1b') (h2 : c ≠ '\n') (h3 : c ≠ '\x7f') :
    (process_insert (process_insert s (Key.char c)) (Key.char '\x7f')).lines = s.lines ∧
    (process_insert (process_insert s (Key.char c)) (Key.char '\x7f')).cursor_y = s.cursor_y ∧
    (process_insert (process_insert s (Key.char c)) (Key.char '\x7f')).cursor_x = s.cursor_x := by
  have e1 : process_insert s (Key.char c) =
      { push_undo s with
        lines := s.lines.set s.cursor_y
          ((s.lines.getD s.cursor_y []).take s.cursor_x ++
            c :: (s.lines.getD s.cursor_y []).drop s.cursor_x),
        cursor_x := s.cursor_x + 1 } := by
    rw [process_insert, if_neg (by simp [h1]), if_neg (by simp [h2]),
      if_neg (by simp [h3])]
    simp [push_undo]
  rw [e1, process_insert, if_neg (by decide), if_neg (by decide), if_pos (by decide),
    if_pos (Nat.succ_pos s.cursor_x)]
  simp only [push_undo]
  refine ⟨?_, trivial, (by omega)⟩
  rw [getD_set_self _ _ _ (by simpa using hrow), List.set_set,
    insert_delete_line _ _ _ hcol, set_getD_self _ _ hrow]

theorem c8_insert_delete_inverse_witness :
    (process_insert (process_insert c8wState (Key.char 'x')) (Key.char '\x7f')).lines =
      c8wState.lines ∧
    (process_insert (process_insert c8wState (Key.char 'x')) (Key.char '\x7f')).cursor_y =
      c8wState.cursor_y ∧
    (process_insert (process_insert c8wState (Key.char 'x')) (Key.char '\x7f')).cursor_x =
      c8wState.cursor_x :=
  c8_insert_delete_inverse c8wState 'x' (by decide) (by decide) (by decide)
    (by decide) (by decide)

/-! ### C3: full undo restores the initial state, full redo the latest -/

/-- C3: starting a session with empty history stacks, after any
sequence of at most 100 mutating edits, calling `undo` once per
remaining undo entry restores the document lines to the session's
initial lines, and then calling `redo` the same number of times
restores the latest lines. -/
theorem c3_undo_redo_roundtrip (s : EditorState) (es : List Edit)
    (hu : s.undo_stack = []) (hr : s.redo_stack = []) (hn : es.length ≤ 100) :
    (undoN (applyEdits es s).undo_stack.length (applyEdits es s)).lines = s.lines ∧
    (redoN (applyEdits es s).undo_stack.length
      (undoN (applyEdits es s).undo_stack.length (applyEdits es s))).lines =
      (applyEdits es s).lines := by
  obtain ⟨h1, h2, h3⟩ := applyEdits_hist es s (by rw [hu]; simpa using hn)
  obtain ⟨a1, a2, a3⟩ := undoN_all (applyEdits es s).undo_stack (applyEdits es s) rfl
  rw [hu] at h3
  constructor
  · rw [a1]
    exact h3
  · have hv : (undoN (applyEdits es s).undo_stack.length (applyEdits es s)).redo_stack =
        ((((applyEdits es s).lines :: (applyEdits es s).undo_stack).dropLast).reverse) ++
          [] := by
      rw [a3, h1, hr]
    have hlen :
        (((((applyEdits es s).lines :: (applyEdits es s).undo_stack).dropLast).reverse)).length =
          (applyEdits es s).undo_stack.length := by
      rw [List.length_reverse, List.length_dropLast, List.length_cons]
      omega
    have hred := redoN_lines _ _ [] hv
    rw [hlen] at hred
    rw [hred]
    cases hfu : (applyEdits es s).undo_stack with
    | nil =>
      rfl
    | cons d ds =>
      rw [List.dropLast_cons₂, List.reverse_cons, List.getLastD_concat]

theorem c3_witness :
    (undoN (applyEdits c3wEdits initState).undo_stack.length
      (applyEdits c3wEdits initState)).lines = initState.lines ∧
    (redoN (applyEdits c3wEdits initState).undo_stack.length
      (undoN (applyEdits c3wEdits initState).undo_stack.length
        (applyEdits c3wEdits initState))).lines =
      (applyEdits c3wEdits initState).lines :=
  c3_undo_redo_roundtrip initState c3wEdits rfl rfl (by decide)

/-! ### C1: mutating edits and the redo stack -/

set_option maxRecDepth 10000

/-- C1 counterexample: from a fresh editor, insert 'a', undo (the redo
stack now holds one snapshot), then perform the mutating edit
"insert 'b'": the redo stack is still non-empty afterwards, so a
mutating edit does not clear it. -/
theorem c1_counterexample :
    (process_insert (undo (process_insert initState (Key.char 'a'))) (Key.char 'b')).redo_stack =
      [[['a']]] ∧
    (process_insert (undo (process_insert initState (Key.char 'a'))) (Key.char 'b')).redo_stack ≠
      [] := by
  decide

/-- C1 (amended): the snapshot `push_undo` leaves the redo stack
unchanged, and so does every mutating edit: any INSERT-mode keystroke,
a dispatched `:replace`, and a dispatched `:new`. -/
theorem c1_amended_mutations_preserve_redo (s : EditorState) (k : Key) (a : List Char) :
    (push_undo s).redo_stack = s.redo_stack ∧
    (process_insert s k).redo_stack = s.redo_stack ∧
    (command_dispatch_core s ("replace".toList) [a]).redo_stack = s.redo_stack ∧
    (command_dispatch_core s ("new".toList) []).redo_stack = s.redo_stack := by
  refine ⟨rfl, ?_, ?_, (cnew_hist s).2⟩
  · rcases process_insert_hist s k with ⟨_, _, h⟩ | ⟨_, h⟩ <;> exact h
  · rcases creplace_hist s a with ⟨_, _, h⟩ | ⟨_, h⟩ <;> exact h

/-! ### C2: the cursor invariant versus `:replace` -/

/-- C2: dispatching `:replace hello/hi` on the single line "hello" with
the cursor at column 5 shortens the line to "hi" but leaves the cursor
column at 5, violating the invariant `column ≤ line length`. -/
theorem c2_replace_breaks_cursor_invariant :
    (command_dispatch c2State ("replace hello/hi".toList)).lines = ["hi".toList] ∧
    (command_dispatch c2State ("replace hello/hi".toList)).cursor_y = 0 ∧
    (command_dispatch c2State ("replace hello/hi".toList)).cursor_x = 5 ∧
    ¬ ((command_dispatch c2State ("replace hello/hi".toList)).cursor_x ≤
        ((command_dispatch c2State ("replace hello/hi".toList)).lines.getD
          (command_dispatch c2State ("replace hello/hi".toList)).cursor_y []).length) := by
  decide

/-! ### C4: history stack bounds -/

/-- C4 counterexample: 101 insert-then-undo cycles from a fresh editor
leave 101 snapshots on the redo stack, so the redo stack is not bounded
by 100 entries. -/
theorem c4_counterexample :
    ((c4cycle^[101]) initState).redo_stack.length = 101 ∧
    ¬ (((c4cycle^[101]) initState).redo_stack.length ≤ 100) := by
  decide

/-- C4 (amended): `push_undo`'s push keeps the undo stack within 100
entries by evicting the oldest, but `undo` grows the redo stack without
any bound and `redo` pushes onto the undo stack without eviction. -/
theorem c4_amended_bounds (l : Doc) (u : List Doc) (s t : EditorState)
    (hu : u.length ≤ 100) (hs : s.undo_stack ≠ []) (ht : t.redo_stack ≠ []) :
    (pushStack l u).length ≤ 100 ∧
    (undo s).redo_stack.length = s.redo_stack.length + 1 ∧
    (redo t).undo_stack.length = t.undo_stack.length + 1 := by
  refine ⟨?_, ?_, ?_⟩
  · rw [pushStack]
    split_ifs with h <;>
      simp only [List.length_dropLast, List.length_cons] at h ⊢ <;> omega
  · obtain ⟨top, rest, h⟩ := List.exists_cons_of_ne_nil hs
    rw [undo.eq_def, h]
    simp
  · obtain ⟨top, rest, h⟩ := List.exists_cons_of_ne_nil ht
    rw [redo.eq_def, h]
    simp

theorem c4_amended_bounds_witness :
    (pushStack [[]] []).length ≤ 100 ∧
    (undo { initState with undo_stack := [[['a']]] }).redo_stack.length =
      ({ initState with undo_stack := [[['a']]] } : EditorState).redo_stack.length + 1 ∧
    (redo { initState with redo_stack := [[['a']]] }).undo_stack.length =
      ({ initState with redo_stack := [[['a']]] } : EditorState).undo_stack.length + 1 :=
  c4_amended_bounds [[]] [] { initState with undo_stack := [[['a']]] }
    { initState with redo_stack := [[['a']]] } (by decide) (by decide) (by decide)

/-! ### C10: COMMAND-mode Backspace handling -/

/-- C10: in COMMAND mode the `'\x7f'` Backspace string is caught by the
append-any-string branch and is appended to the command buffer, while
the `curses.KEY_BACKSPACE` keycode reaches the branch that removes the
buffer's last character. -/
theorem c10_cmd_backspace_order (s : EditorState) :
    (process_cmd s (Key.char '\x7f')).cmd_buffer = s.cmd_buffer ++ ['\x7f'] ∧
    (process_cmd s (Key.code KEY_BACKSPACE)).cmd_buffer = s.cmd_buffer.dropLast :=
  ⟨rfl, rfl⟩

/-! ### C5: search semantics -/

lemma strFind_nil_term (l : List Char) : strFind l [] = some 0 := by
  cases l <;> rfl

lemma findLoop_none (term : List Char) : ∀ (ls : Doc) (i : Nat),
    (∀ l ∈ ls, strFind l term = none) → findLoop term ls i = none := by
  intro ls
  induction ls with
  | nil => intro i _; rfl
  | cons l rest ih =>
    intro i h
    have h0 : strFind l term = none := h l (List.mem_cons_self l rest)
    rw [findLoop, h0]
    exact ih (i + 1) (fun x hx => h x (List.mem_cons_of_mem l hx))

lemma findLoop_spec (term : List Char) : ∀ (ls : Doc) (i j k : Nat),
    findLoop term ls i = some (j, k) →
    i ≤ j ∧ j - i < ls.length ∧ strFind (ls.getD (j - i) []) term = some k ∧
      ∀ m, m < j - i → strFind (ls.getD m []) term = none := by
  intro ls
  induction ls with
  | nil => intro i j k h; exact absurd h (by rw [findLoop]; exact Option.noConfusion)
  | cons l rest ih =>
    intro i j k h
    rw [findLoop] at h
    cases hf : strFind l term with
    | some idx =>
      rw [hf] at h
      simp only [Option.some.injEq, Prod.mk.injEq] at h
      obtain ⟨h1, h2⟩ := h
      refine ⟨by omega, ?_, ?_, ?_⟩
      · simp only [List.length_cons]
        omega
      · have h0 : j - i = 0 := by omega
        rw [h0]
        show strFind l term = some k
        rw [hf, h2]
      · intro m hm
        exact absurd hm (by omega)
    | none =>
      rw [hf] at h
      obtain ⟨i1, i2, i3, i4⟩ := ih (i + 1) j k h
      refine ⟨by omega, ?_, ?_, ?_⟩
      · simp only [List.length_cons]
        omega
      · have : j - i = (j - (i + 1)) + 1 := by omega
        rw [this]
        exact i3
      · intro m hm
        cases m with
        | zero => exact hf
        | succ m' =>
          have : m' < j - (i + 1) := by omega
          exact i4 m' this

/-- C5: search with the empty term on a non-empty document succeeds at
(0, 0) and puts the cursor there; search for a term occurring in no
line fails and leaves the cursor unchanged; a successful search sets
the cursor to the first match found scanning rows from 0 in order
(no wrapping: the matched row is within the buffer and every earlier
row has no match). -/
theorem c5_find_term_spec (s : EditorState) (term : List Char) :
    (term = [] → s.lines ≠ [] →
      (find_term s term).1 = true ∧ (find_term s term).2.cursor_y = 0 ∧
      (find_term s term).2.cursor_x = 0) ∧
    ((∀ l ∈ s.lines, strFind l term = none) →
      (find_term s term).1 = false ∧
      (find_term s term).2.cursor_y = s.cursor_y ∧
      (find_term s term).2.cursor_x = s.cursor_x) ∧
    ((find_term s term).1 = true →
      ∃ j k, (find_term s term).2.cursor_y = j ∧ (find_term s term).2.cursor_x = k ∧
        j < s.lines.length ∧ strFind (s.lines.getD j []) term = some k ∧
        ∀ m, m < j → strFind (s.lines.getD m []) term = none) := by
  refine ⟨?_, ?_, ?_⟩
  · intro ht hne
    subst ht
    obtain ⟨l, rest, he⟩ := List.exists_cons_of_ne_nil hne
    have hl : findLoop [] s.lines 0 = some (0, 0) := by
      rw [he, findLoop, strFind_nil_term]
    rw [find_term.eq_def, hl]
    exact ⟨rfl, rfl, rfl⟩
  · intro h
    have hn := findLoop_none term s.lines 0 h
    rw [find_term.eq_def, hn]
    exact ⟨rfl, rfl, rfl⟩
  · intro h
    cases hl : findLoop term s.lines 0 with
    | none =>
      rw [find_term.eq_def, hl] at h
      exact absurd h (by simp)
    | some p =>
      obtain ⟨j0, k0⟩ := p
      obtain ⟨_, hlt, hfind, hall⟩ := findLoop_spec term s.lines 0 j0 k0 hl
      refine ⟨j0, k0, ?_, ?_, ?_, ?_, ?_⟩
      · rw [find_term.eq_def, hl]
      · rw [find_term.eq_def, hl]
      · simpa using hlt
      · simpa using hfind
      · intro m hm
        exact hall m (by omega)

theorem c5_witness :
    ((find_term c5wState []).1 = true ∧
     (find_term c5wState []).2.cursor_y = 0 ∧
     (find_term c5wState []).2.cursor_x = 0) ∧
    ((find_term c5wState ['z']).1 = false ∧
     (find_term c5wState ['z']).2.cursor_y = c5wState.cursor_y ∧
     (find_term c5wState ['z']).2.cursor_x = c5wState.cursor_x) ∧
    (∃ j k, (find_term c5wState []).2.cursor_y = j ∧
      (find_term c5wState []).2.cursor_x = k ∧
      j < c5wState.lines.length ∧ strFind (c5wState.lines.getD j []) [] = some k ∧
      ∀ m, m < j → strFind (c5wState.lines.getD m []) [] = none) :=
  ⟨(c5_find_term_spec c5wState []).1 rfl (by decide),
   (c5_find_term_spec c5wState ['z']).2.1 (by decide),
   (c5_find_term_spec c5wState []).2.2 (by decide)⟩

/-! ### C6: verbs outside the dispatch table -/

/-- C6 counterexample: `pwd` is not in the §4.5 verb table, yet
dispatching it reports the working directory, not "Unknown command:
pwd". -/
theorem c6_counterexample :
    (command_dispatch c6State ("pwd".toList)).status_msg = "/tmp" ∧
    (command_dispatch c6State ("pwd".toList)).status_msg ≠ "Unknown command: pwd" ∧
    ("pwd".toList) ∉ specVerbs := by
  decide

/-- C6 (amended): for every verb outside the code's dispatch table
(which besides the §4.5 verbs also contains `!`, `open`, `pwd` and
`cd`), dispatch changes nothing except setting the status message to
"Unknown command: <verb>". -/
theorem c6_amended_unknown_verb (s : EditorState) (cmd c : List Char)
    (rest : List (List Char)) (hsplit : pySplit (pyStrip cmd) = c :: rest)
    (hc : c ∉ knownVerbs) :
    command_dispatch s cmd = { s with status_msg := "Unknown command: " ++ String.mk c } := by
  simp only [knownVerbs, List.mem_cons, List.not_mem_nil, or_false, not_or] at hc
  obtain ⟨h1, h2, h3, h4, h5, h6, h7, h8, h9, h10, h11, h12, h13, h14, h15, h16, h17⟩ := hc
  rw [command_dispatch.eq_def, hsplit]
  show command_dispatch_core s c rest = _
  rw [command_dispatch_core.eq_def, if_neg h1, if_neg h2, if_neg h3, if_neg h4,
    if_neg h5, if_neg h6, if_neg h7, if_neg h8, if_neg h9, if_neg h10, if_neg h11,
    if_neg h12, if_neg h13, if_neg h14, if_neg h15, if_neg h16, if_neg h17]

theorem c6_witness :
    command_dispatch initState ("foo".toList) =
      { initState with status_msg := "Unknown command: " ++ String.mk ("foo".toList) } :=
  c6_amended_unknown_verb initState ("foo".toList) ("foo".toList) [] (by decide) (by decide)

/-! ### C7: malformed `:replace` -/

lemma pySplitOnce_eq_none (sep : Char) (a : List Char) (h : sep ∉ a) :
    pySplitOnce sep a = none := by
  induction a with
  | nil => rfl
  | cons c t ih =>
    rw [pySplitOnce, if_neg (by simp at h; exact fun hc => h.1 hc.symm),
      ih (by simp at h; exact h.2)]
    rfl

/-- C7: dispatching `:replace` whose first argument has no '/'
delimiter only sets the usage status message; the resulting state is
otherwise identical (lines, cursor, filename, both stacks — in
particular no snapshot is pushed). -/
theorem c7_replace_malformed_no_change (s : EditorState) (cmd a : List Char)
    (more : List (List Char))
    (hsplit : pySplit (pyStrip cmd) = "replace".toList :: a :: more)
    (ha : ('/' : Char) ∉ a) :
    command_dispatch s cmd = { s with status_msg := "Usage: :replace old/new" } := by
  rw [command_dispatch.eq_def, hsplit]
  show command_dispatch_core s ("replace".toList) (a :: more) = _
  have e1 : command_dispatch_core s ("replace".toList) (a :: more) =
      match pySplitOnce '/' a with
      | none => { s with status_msg := "Usage: :replace old/new" }
      | some (old, new) =>
        { push_undo s with
          lines := s.lines.map (fun ln => pyReplace ln old new),
          status_msg :=
            "Replaced '" ++ String.mk old ++ "' with '" ++ String.mk new ++ "'" } := rfl
  rw [e1, pySplitOnce_eq_none '/' a ha]

theorem c7_witness :
    command_dispatch initState ("replace foo".toList) =
      { initState with status_msg := "Usage: :replace old/new" } :=
  c7_replace_malformed_no_change initState ("replace foo".toList) ("foo".toList) []
    (by decide) (by decide)

/-! ### C9: save/load round-trip -/

lemma splitSep_no_break (a : List Char) (h : ∀ c ∈ a, pyIsLineBreak c = false) :
    splitSep a = [a] := by
  induction a with
  | nil => rfl
  | cons c t ih =>
    rw [splitSep, if_neg (by rw [h c (List.mem_cons_self c t)]; exact Bool.false_ne_true),
      ih (fun x hx => h x (List.mem_cons_of_mem c hx))]

lemma splitSep_break_cons (a : List Char) (rest : List Char)
    (h : ∀ c ∈ a, pyIsLineBreak c = false) :
    splitSep (a ++ '\n' :: rest) = a :: splitSep rest := by
  induction a with
  | nil =>
    show splitSep ('\n' :: rest) = [] :: splitSep rest
    rw [splitSep, if_pos (by decide)]
  | cons c t ih =>
    show splitSep (c :: (t ++ '\n' :: rest)) = (c :: t) :: splitSep rest
    rw [splitSep, if_neg (by rw [h c (List.mem_cons_self c t)]; exact Bool.false_ne_true),
      ih (fun x hx => h x (List.mem_cons_of_mem c hx))]

lemma splitSep_joinNl (d : Doc) : d ≠ [] →
    (∀ l ∈ d, ∀ c ∈ l, pyIsLineBreak c = false) →
    splitSep (joinNl d) = d := by
  induction d with
  | nil => intro h _; exact absurd rfl h
  | cons l rest ih =>
    intro _ h
    cases rest with
    | nil =>
      show splitSep l = [l]
      exact splitSep_no_break l (h l (List.mem_cons_self l []))
    | cons l2 rest2 =>
      show splitSep (l ++ '\n' :: joinNl (l2 :: rest2)) = l :: l2 :: rest2
      rw [splitSep_break_cons l _ (h l (List.mem_cons_self l _)),
        ih (by simp) (fun x hx => h x (List.mem_cons_of_mem l hx))]

lemma load_file_read (t : EditorState) (f v : List Char) (hf : t.fname = some f)
    (hr : fsRead t.fs f = some v) :
    load_file t =
      { t with lines := if pySplitlines v = [] then [[]] else pySplitlines v } := by
  rw [load_file.eq_def, hf]
  show (match fsRead t.fs f with
    | some content =>
      let ls := pySplitlines content
      { t with fname := some f, lines := if ls = [] then [[]] else ls }
    | none => { t with fname := some f, lines := [[]] }) = _
  rw [hr, ← hf]

/-- C9 counterexample: saving the document ["a", ""] (trailing empty
line) and loading it back yields ["a"]: `splitlines` drops the final
empty piece, so the round-trip is not the identity. -/
theorem c9_counterexample :
    (load_file (save_file c9State none)).lines = [['a']] ∧
    (load_file (save_file c9State none)).lines ≠ c9State.lines := by
  decide

/-- C9 (amended): saving to the current filename and loading it back
restores the document lines exactly, provided no line contains a
line-break character and the document does not end in an empty line
(or is exactly the single empty line); a trailing empty line would be
dropped by `splitlines`. -/
theorem c9_amended_save_load_roundtrip (s : EditorState) (f : List Char)
    (hf : s.fname = some f)
    (hnb : ∀ l ∈ s.lines, ∀ c ∈ l, pyIsLineBreak c = false)
    (hlast : s.lines.getLastD [] ≠ [] ∨ s.lines = [[]]) :
    (load_file (save_file s none)).lines = s.lines := by
  have e1 : save_file s none =
      match s.fname with
      | some g =>
        { s with
          fs := fsWrite s.fs g (joinNl s.lines),
          status_msg := "Saved to " ++ String.mk g,
          fname := some g }
      | none => { s with status_msg := "No filename specified" } := rfl
  rw [e1, hf]
  show (load_file
    { s with
      fs := fsWrite s.fs f (joinNl s.lines),
      status_msg := "Saved to " ++ String.mk f,
      fname := some f }).lines = s.lines
  rw [load_file_read _ f (joinNl s.lines) rfl (by simp [fsRead, fsWrite])]
  show (if pySplitlines (joinNl s.lines) = [] then [[]] else pySplitlines (joinNl s.lines)) =
    s.lines
  rcases hlast with hl | heq
  · have hd : s.lines ≠ [] := by
      intro h0
      rw [h0] at hl
      exact hl rfl
    have hsplit := splitSep_joinNl s.lines hd hnb
    have hps : pySplitlines (joinNl s.lines) = s.lines := by
      rw [pySplitlines]
      show (if (splitSep (joinNl s.lines)).getLastD [] = [] then
        (splitSep (joinNl s.lines)).dropLast else splitSep (joinNl s.lines)) = s.lines
      rw [hsplit, if_neg hl]
    rw [hps, if_neg hd]
  · rw [heq]
    rfl

theorem c9_witness :
    (load_file (save_file c9wState none)).lines = c9wState.lines :=
  c9_amended_save_load_roundtrip c9wState ['f'] rfl (by decide) (Or.inl (by decide))

end Crane
